import Mathlib

/-!
Verification of the mail-parser/aggregator ingestion pipeline.

Shallow embedding of the repository's core functions:
 - `service/util.py` (`calculate_savings`)
 - `service/database/knowledge_database.py` (`add_knowledge`,
   `_extract_website_from_url`), with the Memgraph/Cypher `MERGE` semantics
   modelled as a pure transformer on an explicit graph value
 - `service/text/text_processor.py` (`TextProcessorWrapper.process`,
   `HtmlProcessor.process_text`)
 - `service/mail/mail_processor.py` (`process_emails`, `process_email`,
   `_extract_email_from_sender`)

Python strings are embedded as `List Char`; Python floats as `ℚ` (the code
computes exact rational expressions); wall-clock readings (durations,
start/end instants) are not modelled.  Fallible steps return `Except`.
-/

/-- Python strings are modelled as lists of characters. -/
abbrev Str : Type := List Char

/-- `service/util.py` lines 4-17: percentage savings between two sizes,
`0.0` when the start size is `0`, else `(start-end)/start*100`. -/
def calculate_savings (start_size end_size : Nat) : ℚ :=
  if start_size = 0 then 0 else ((start_size : ℚ) - (end_size : ℚ)) / (start_size : ℚ) * 100

/-- `str.startswith` on the character-list embedding. -/
def startsWithStr : Str → Str → Bool
  | [], _ => true
  | _ :: _, [] => false
  | a :: ps, b :: ss => a == b && startsWithStr ps ss

/-- Python `str.split(sep)` for a one-character separator: the list of
(possibly empty) fragments between occurrences of the separator.  Mirrors
`"".split(c) == [""]`. -/
def splitOnChar (c : Char) : Str → List Str
  | [] => [[]]
  | x :: xs =>
    if x = c then [] :: splitOnChar c xs
    else
      match splitOnChar c xs with
      | [] => [[x]]
      | h :: t => (x :: h) :: t

/-- `knowledge_database.py` lines 258-264 (`_extract_website_from_url`):
drop a leading `http://` or `https://`, then `url.split("/")[0]`. -/
def extract_website_from_url (url : Str) : Str :=
  let url1 : Str :=
    if startsWithStr "http://".toList url then url.drop 7
    else if startsWithStr "https://".toList url then url.drop 8
    else url
  (splitOnChar '/' url1).headD []

/-- The spec's wording of website derivation (§4.2 step 2): strip a leading
scheme, then take everything before the first `/`. -/
def websiteSpec (url : Str) : Str :=
  let url1 : Str :=
    if startsWithStr "http://".toList url then url.drop 7
    else if startsWithStr "https://".toList url then url.drop 8
    else url
  url1.takeWhile (fun ch => ch ≠ '/')

theorem splitOnChar_ne_nil (c : Char) (s : Str) : splitOnChar c s ≠ [] := by
  cases s with
  | nil => simp [splitOnChar]
  | cons x xs =>
    by_cases h : x = c
    · simp [splitOnChar, h]
    · simp only [splitOnChar, if_neg h]
      cases splitOnChar c xs <;> simp

theorem splitOnChar_head (c : Char) (s : Str) :
    (splitOnChar c s).headD [] = s.takeWhile (fun ch => ch ≠ c) := by
  induction s with
  | nil => simp [splitOnChar]
  | cons x xs ih =>
    by_cases h : x = c
    · subst h
      simp [splitOnChar, List.takeWhile_cons]
    · simp only [splitOnChar, if_neg h]
      have htw : (x :: xs).takeWhile (fun ch => ch ≠ c)
          = x :: xs.takeWhile (fun ch => ch ≠ c) := by
        simp [List.takeWhile_cons, h]
      rcases hsp : splitOnChar c xs with _ | ⟨h1, t1⟩
      · exact absurd hsp (splitOnChar_ne_nil c xs)
      · have := ih
        rw [hsp] at this
        simp only [List.headD_cons] at this
        simp only [List.headD_cons]
        rw [htw, this]

/-- C8: website derivation.  For every URL the code's
`_extract_website_from_url` agrees with the spec's description (strip a
leading `http://`/`https://`, truncate at the first `/`), and on the spec's
two examples it yields `news.example.com` and `example.org`. -/
theorem extract_website_from_url_correct :
    (∀ url : Str, extract_website_from_url url = websiteSpec url) ∧
    extract_website_from_url "https://news.example.com/path".toList
      = "news.example.com".toList ∧
    extract_website_from_url "http://example.org".toList = "example.org".toList := by
  refine ⟨?_, by decide, by decide⟩
  intro url
  unfold extract_website_from_url websiteSpec
  simp only [splitOnChar_head]

/-- C5: savings percentage.  For every pair of sizes, `calculate_savings`
returns `0` when the input size is `0`, and `(in - out)/in * 100` when the
input size is positive. -/
theorem calculate_savings_correct (s e : Nat) :
    (s = 0 → calculate_savings s e = 0) ∧
    (0 < s → calculate_savings s e = ((s : ℚ) - (e : ℚ)) / (s : ℚ) * 100) := by
  constructor
  · intro h
    simp [calculate_savings, h]
  · intro h
    have hne : s ≠ 0 := Nat.pos_iff_ne_zero.mp h
    simp [calculate_savings, hne]

/-- Witness for C5 at the concrete sizes `4` and `1`: savings is `75%`. -/
theorem calculate_savings_correct_witness :
    (0 < 4 ∧ calculate_savings 4 1 = ((4 : ℚ) - (1 : ℚ)) / (4 : ℚ) * 100) ∧
    calculate_savings 4 1 = 75 := by
  refine ⟨⟨by norm_num, (calculate_savings_correct 4 1).2 (by norm_num)⟩, ?_⟩
  norm_num [calculate_savings]

/-- ASCII whitespace as recognised by Python `str.strip`. -/
def isSpaceChar (c : Char) : Bool :=
  c = ' ' || c = '\t' || c = '\n' || c = '\r' || c = Char.ofNat 11 || c = Char.ofNat 12

/-- Python `str.strip()`: drop leading and trailing whitespace. -/
def pyStrip (s : Str) : Str :=
  ((s.dropWhile isSpaceChar).reverse.dropWhile isSpaceChar).reverse

/-- Leftmost match of the regex `<([^>]+)>` (`re.search` in
`_extract_email_from_sender`): scan for a `<` followed by at least one
non-`>` character and then a `>`; return the group between the brackets. -/
def findAngle : Str → Option Str
  | [] => none
  | c :: rest =>
    if c = '<' then
      let t := rest.takeWhile (fun ch => ch ≠ '>')
      if t = [] then findAngle rest
      else
        match rest.drop t.length with
        | [] => findAngle rest
        | _ :: _ => some t
    else findAngle rest

/-- `mail_processor.py` lines 243-251 (`_extract_email_from_sender`): the
regex group inside `<...>` if present, else the stripped sender when it
contains `@`, else `None`. -/
def extract_email_from_sender (sender : Str) : Option Str :=
  match findAngle sender with
  | some g => some g
  | none => if sender.contains '@' then some (pyStrip sender) else none

/-- `mail_fetcher.py` `Mail`, restricted to the fields the processor reads
(attachments, subject and recipients play no part in the claims). -/
structure MailM where
  id : Str
  date : Int
  sender : Str
  body : Str
deriving DecidableEq

/-- `mail_processor.py` lines 133-137: the sender-approval test
`_extract_email_from_sender(email.sender) in approved_mails` (a `None`
result never equals a string in the allow-list). -/
def senderApproved (approved : List Str) (sender : Str) : Bool :=
  match extract_email_from_sender sender with
  | some a => approved.contains a
  | none => false

/-- `mail_processor.py` lines 133-137: the filtered message list
`mails_to_process`. -/
def mails_to_process (approved : List Str) (emails : List MailM) : List MailM :=
  emails.filter (fun e => senderApproved approved e.sender)

theorem senderApproved_iff (approved : List Str) (sender : Str) :
    senderApproved approved sender = true ↔
      ∃ a, extract_email_from_sender sender = some a ∧ a ∈ approved := by
  unfold senderApproved
  rcases h : extract_email_from_sender sender with _ | a
  · simp
  · simp [List.elem_iff]

/-- Example message from the spec's filtering scenario: sender
`Alice <a@x.com>`. -/
def mailAlice : MailM := ⟨"m1".toList, 1, "Alice <a@x.com>".toList, []⟩

/-- Example message from the spec's filtering scenario: sender `b@y.com`. -/
def mailB : MailM := ⟨"m2".toList, 2, "b@y.com".toList, []⟩

/-- Example message from the spec's filtering scenario: sender
`bad-format`. -/
def mailBad : MailM := ⟨"m3".toList, 3, "bad-format".toList, []⟩

/-- C7: sender filtering.  A fetched message passes the filter exactly when
`_extract_email_from_sender` yields an address that is in the allow-list;
with allow-list `{a@x.com}` and senders `Alice <a@x.com>`, `b@y.com`,
`bad-format`, only the first message passes. -/
theorem mails_to_process_correct :
    (∀ (approved : List Str) (emails : List MailM) (m : MailM),
      m ∈ mails_to_process approved emails ↔
        m ∈ emails ∧ ∃ a, extract_email_from_sender m.sender = some a ∧ a ∈ approved) ∧
    mails_to_process ["a@x.com".toList] [mailAlice, mailB, mailBad] = [mailAlice] := by
  constructor
  · intro approved emails m
    unfold mails_to_process
    rw [List.mem_filter]
    exact and_congr_right fun _ => senderApproved_iff approved m.sender
  · decide

/-- `text_processor.py` lines 34-42 (`ProcessingAudit` of the text module):
one audit per pipeline stage.  The wall-clock duration and the unused
`tokens_used` field are not modelled. -/
structure StageAuditM where
  processor_name : Str
  start_text_size : Nat
  end_text_size : Nat
  savings_percentage : ℚ
deriving DecidableEq

/-- A text processor as the wrapper sees it: its `str(processor)` name and
its `process_text(text, source)` function. -/
structure TextProc where
  procName : Str
  fn : Str → Str → Str

/-- One iteration of the loop in `TextProcessorWrapper.process`
(`text_processor.py` lines 64-79): run the processor on the current text and
append its stage audit. -/
def wrapperStep (source : Str) (st : Str × List StageAuditM) (p : TextProc) :
    Str × List StageAuditM :=
  let out := p.fn st.1 source
  (out,
    st.2 ++ [⟨p.procName, st.1.length, out.length,
      calculate_savings st.1.length out.length⟩])

/-- `text_processor.py` lines 51-80 (`TextProcessorWrapper.process`): thread
the text through the processor list, accumulating one stage audit per
processor. -/
def wrapperProcess (procs : List TextProc) (text source : Str) :
    Str × List StageAuditM :=
  procs.foldl (wrapperStep source) (text, [])

/-- C4: pipeline composability.  Running the wrapper over `[A, B]` yields the
text obtained by applying `A` and feeding its output to `B`; the audit list
has exactly one entry per processor in list order, and each stage's recorded
input size equals the previous stage's recorded output size. -/
theorem wrapperProcess_composes (A B : TextProc) (text source : Str) :
    (wrapperProcess [A, B] text source).1 = B.fn (A.fn text source) source ∧
    ∃ a1 a2, (wrapperProcess [A, B] text source).2 = [a1, a2] ∧
      a1.processor_name = A.procName ∧ a2.processor_name = B.procName ∧
      a1.start_text_size = text.length ∧
      a1.end_text_size = (A.fn text source).length ∧
      a2.start_text_size = a1.end_text_size ∧
      a2.end_text_size = (wrapperProcess [A, B] text source).1.length := by
  exact ⟨rfl, ⟨_, _, rfl, rfl, rfl, rfl, rfl, rfl, rfl⟩⟩

/-- Tag/text tokenizer underlying `HtmlProcessor.process_text`
(`text_processor.py` lines 97-101): models how the `html.parser` backend of
BeautifulSoup carves the input into text fragments lying outside `<...>`
tags.  The flag records whether the scan is inside a tag; `cur` is the
reversed current fragment. -/
def goFrag : Bool → Str → Str → List Str
  | _, [], cur => [cur.reverse]
  | false, c :: rest, cur =>
    if c = '<' then cur.reverse :: goFrag true rest []
    else goFrag false rest (c :: cur)
  | true, c :: rest, cur =>
    if c = '>' then goFrag false rest cur else goFrag true rest cur

/-- The text fragments of a document, in order. -/
def htmlFragments (s : Str) : List Str := goFrag false s []

/-- Join fragments with a newline separator (`get_text(separator="\n")`). -/
def joinNL : List Str → Str
  | [] => []
  | [s] => s
  | s :: r :: rest => s ++ '\n' :: joinNL (r :: rest)

/-- `text_processor.py` lines 86-101 (`HtmlProcessor.process_text`): models
`BeautifulSoup(text, "html.parser").get_text(separator="\n", strip=True)` —
every text fragment outside tags is stripped, empty fragments are dropped,
and the rest are joined with newlines.  HTML character references are not
modelled, so the model is faithful on inputs without `&`-references. -/
def html_process_text (text : Str) : Str :=
  joinNL (((htmlFragments text).map pyStrip).filter (fun f => f ≠ []))

/-- C6 counterexample: the input `" a "` contains no markup tag, yet
`HtmlProcessor.process_text` returns `"a"`, not the input unchanged —
`get_text(strip=True)` strips surrounding whitespace. -/
theorem html_process_text_not_identity :
    (" a ".toList.contains '<' = false) ∧
    html_process_text " a ".toList = "a".toList ∧
    html_process_text " a ".toList ≠ " a ".toList := by
  decide

theorem goFrag_no_tag (s : Str) (cur : Str) (h : s.contains '<' = false) :
    goFrag false s cur = [cur.reverse ++ s] := by
  induction s generalizing cur with
  | nil => simp [goFrag]
  | cons c rest ih =>
    have hc : ¬c = '<' := by
      intro he
      subst he
      simp [List.contains_cons] at h
    have hr : rest.contains '<' = false := by
      simp [List.contains_cons] at h ⊢
      exact h.2
    simp only [goFrag, if_neg hc]
    rw [ih (c :: cur) hr]
    simp

/-- C6 amended: on input containing no markup tags and no character
references, `HtmlProcessor.process_text` returns the input with leading and
trailing whitespace stripped (hence unchanged exactly when the input has no
surrounding whitespace). -/
theorem html_process_text_plain (s : Str)
    (h1 : s.contains '<' = false) (h2 : s.contains '&' = false) :
    html_process_text s = pyStrip s := by
  unfold html_process_text htmlFragments
  rw [goFrag_no_tag s [] h1]
  simp only [List.reverse_nil, List.nil_append, List.map_cons, List.map_nil]
  by_cases he : pyStrip s = []
  · simp [he, joinNL]
  · simp [he, joinNL]

/-- Witness for the amended C6 at the tag-free input `"ab"`. -/
theorem html_process_text_plain_witness :
    ("ab".toList.contains '<' = false ∧ "ab".toList.contains '&' = false) ∧
    html_process_text "ab".toList = pyStrip "ab".toList :=
  ⟨⟨by decide, by decide⟩,
    html_process_text_plain "ab".toList (by decide) (by decide)⟩

/-- `knowledge_database.py` lines 33-39: a knowledge concept extracted from a
message. -/
structure KnowledgeConcept where
  name : Str
  topic : Str
  urls : List Str
  keywords : List Str
deriving DecidableEq

/-- `knowledge_extraction_llm.py` lines 20-28
(`MeteredKnowledgeConceptResponse`), restricted to the fields the processor
reads. -/
structure MeteredM where
  concepts : List KnowledgeConcept
  totalTokens : Nat
  cachedTokens : Nat
deriving DecidableEq

/-- Modelled from the spec: `Mail.get_identifier` is absent from the
snapshot's `mail_fetcher.py` although `mail_processor.py` calls it; §6 says
processed artifacts are keyed by "the message's stable identifier", so the
identifier is the message's stable id. -/
def mailIdentifier (m : MailM) : Str := m.id

/-- A Python runtime error reaching the `process_email` frame: either a
`TypeError` raised by a bad call binding, or an error propagated out of a
collaborator (text pipeline, LLM, graph, store). -/
inductive PyError where
  | typeError
  | collaboratorError
deriving DecidableEq

/-- `mail_processor.py` lines 24-45 (`ProcessedMail`), restricted to the
fields the run loop reads back. -/
structure PMailM where
  mail : MailM
  identifier : Str
  tokens_used : Nat
  tokens_cached : Nat
  concepts : List KnowledgeConcept
deriving DecidableEq

/-- `mail_processor.py` lines 48-67 (`ProcessingMailAudit`), restricted to
the audited quantities the claims speak about (token/model metadata and
wall-clock times omitted). -/
structure MailAuditM where
  mail_identifier : Str
  mail_source : Option Str
  original_body_size : Nat
  processed_body_size : Nat
  savings : ℚ
  processing_steps : List StageAuditM
deriving DecidableEq

/-- `azure_blob_repo.py` `RepoBlob` as built at `mail_processor.py` lines
179-186 (the serialized payload itself is not modelled). -/
structure UploadM where
  name : Str
  container : Str
  size : Nat
deriving DecidableEq

/-- `mail_processor.py` lines 75-97 (`ProcessingAudit`, the run audit),
restricted to the audited quantities the claims speak about. -/
structure RunAuditM where
  total_emails_fetched : Nat
  total_emails_processed : Nat
  mail_start_window : Option Int
  mail_end_window : Option Int
  processed_mails : List MailAuditM
deriving DecidableEq

/-- The observable outcome of a completed `process_emails` run: the
persisted run audit, the object-store uploads performed, and the returned
count. -/
structure RunOutcome where
  audit : RunAuditM
  uploads : List UploadM
  retVal : Nat
deriving DecidableEq

/-- Python `min` over a nonempty list, `none` on the empty guard
(`mail_processor.py` line 139). -/
def pyMin : List Int → Option Int
  | [] => none
  | x :: xs => some (xs.foldl min x)

/-- Python `max` over a nonempty list, `none` on the empty guard
(`mail_processor.py` line 140). -/
def pyMax : List Int → Option Int
  | [] => none
  | x :: xs => some (xs.foldl max x)

/-- The parameters of `KnowledgeDatabase.add_knowledge`
(`knowledge_database.py` lines 127-133), all required. -/
def add_knowledge_params : List Str :=
  ["concepts".toList, "email_id".toList, "email_datetime".toList, "source".toList]

/-- The keyword arguments supplied at the `add_knowledge` call site
(`mail_processor.py` lines 215-219). -/
def add_knowledge_call_args : List Str :=
  ["concepts".toList, "email_id".toList, "source".toList]

/-- Python call binding: a call binds iff every required parameter is
supplied; otherwise the call raises `TypeError`. -/
def pyCallBindsOk (required given : List Str) : Bool :=
  required.all (fun p => given.contains p)

/-- `mail_processor.py` lines 200-241 (`process_email`): clean the body via
the wrapper, query the extractor, then invoke `add_knowledge`.  The
extractor is the injected collaborator `llm`; its failure propagates.  The
`add_knowledge` invocation is modelled through Python call binding: the call
site omits the required `email_datetime` parameter, so when binding fails
the step raises `TypeError` (the graph write never becomes reachable, hence
no graph state is threaded here; `add_knowledge` itself is modelled
separately below). -/
def process_email (procs : List TextProc) (llm : Str → Str → Except Unit MeteredM)
    (prompt : Str) (email : MailM) : Except PyError (PMailM × List StageAuditM) :=
  let sourceLabel := (extract_email_from_sender email.sender).getD []
  let r := wrapperProcess procs email.body sourceLabel
  let email2 : MailM := { email with body := r.1 }
  match llm r.1 prompt with
  | Except.error _ => Except.error PyError.collaboratorError
  | Except.ok resp =>
    if pyCallBindsOk add_knowledge_params add_knowledge_call_args then
      Except.ok
        (⟨email2, mailIdentifier email2, resp.totalTokens, resp.cachedTokens,
          resp.concepts⟩, r.2)
    else Except.error PyError.typeError

/-- The per-message loop of `process_emails` (`mail_processor.py` lines
143-186): fetch the full message, process it, append its audit and upload
its artifact.  An exception from `process_one` propagates (there is no
`try/except` in the loop); the error value carries the uploads already
performed, which as real side effects persist across the abort. -/
def runLoop (container : Str) (fetchFull : Str → MailM)
    (process_one : MailM → Except PyError (PMailM × List StageAuditM)) :
    List MailM → List MailAuditM → List UploadM →
      Except (PyError × List UploadM) (List MailAuditM × List UploadM)
  | [], audits, uploads => Except.ok (audits, uploads)
  | basic :: rest, audits, uploads =>
    let email := fetchFull basic.id
    match process_one email with
    | Except.error e => Except.error (e, uploads)
    | Except.ok (pm, stageAudits) =>
      let rec1 : MailAuditM :=
        ⟨pm.identifier, extract_email_from_sender email.sender,
          email.body.length, pm.mail.body.length,
          calculate_savings email.body.length pm.mail.body.length, stageAudits⟩
      runLoop container fetchFull process_one rest (audits ++ [rec1])
        (uploads ++ [⟨pm.identifier ++ ".json".toList, container, pm.mail.body.length⟩])

/-- `mail_processor.py` lines 124-198 (`process_emails`): filter the fetched
messages by approved sender, compute the observed window, run the
per-message loop, then persist one run audit and return
`len(mails_to_process)`.  Collaborators (full-message fetch and per-message
processing) are the injected dependencies of `MailProcessor`.  An
`Except.ok` outcome carries the persisted run audit; an `Except.error`
models the exception propagating out of the method — the audit write at
line 197 is never reached. -/
def process_emails (approved : List Str) (emails : List MailM) (container : Str)
    (fetchFull : Str → MailM)
    (process_one : MailM → Except PyError (PMailM × List StageAuditM)) :
    Except (PyError × List UploadM) RunOutcome :=
  let mtp := mails_to_process approved emails
  let stamps := mtp.map (fun e => e.date)
  let sw := pyMin stamps
  let ew := pyMax stamps
  match runLoop container fetchFull process_one mtp [] [] with
  | Except.error e => Except.error e
  | Except.ok (audits, uploads) =>
    Except.ok ⟨⟨emails.length, mtp.length, sw, ew, audits⟩, uploads, mtp.length⟩

/-- C2: the claim fails on the code.  `process_email` invokes
`add_knowledge` without the required `email_datetime` parameter
(`mail_processor.py` lines 215-219 against `knowledge_database.py` lines
127-133), so even when text cleaning and extraction succeed the call raises
`TypeError` — for every email and every successful extractor response,
`process_email` errors instead of completing the knowledge-graph upsert. -/
theorem process_email_raises_type_error (procs : List TextProc) (prompt : Str)
    (email : MailM) (resp : MeteredM) :
    process_email procs (fun _ _ => Except.ok resp) prompt email
      = Except.error PyError.typeError := by
  have hb : pyCallBindsOk add_knowledge_params add_knowledge_call_args = false := by
    decide
  simp [process_email, hb]

/-- C9: empty-window boundary.  When the filtered message set is empty,
`process_emails` completes without error, persists a run audit with both
window bounds null and an empty per-message audit list, performs no uploads,
and returns `0`. -/
theorem process_emails_empty_window (approved : List Str) (emails : List MailM)
    (container : Str) (fetchFull : Str → MailM)
    (process_one : MailM → Except PyError (PMailM × List StageAuditM))
    (h : mails_to_process approved emails = []) :
    process_emails approved emails container fetchFull process_one
      = Except.ok ⟨⟨emails.length, 0, none, none, []⟩, [], 0⟩ := by
  simp [process_emails, h, runLoop, pyMin, pyMax]

/-- Witness for C9: one fetched message, empty allow-list — the filtered set
is empty and the run audit has null windows and no per-message audits. -/
theorem process_emails_empty_window_witness :
    mails_to_process [] [mailAlice] = [] ∧
    process_emails [] [mailAlice] "c".toList (fun _ => mailAlice)
      (fun _ => Except.error PyError.typeError)
      = Except.ok ⟨⟨1, 0, none, none, []⟩, [], 0⟩ :=
  ⟨by decide,
    process_emails_empty_window [] [mailAlice] "c".toList (fun _ => mailAlice)
      (fun _ => Except.error PyError.typeError) (by decide)⟩

/-- Full message bodies for the end-to-end failure scenario. -/
def fullAlice : MailM := ⟨"m1".toList, 1, "Alice <a@x.com>".toList, "Hello World".toList⟩

/-- Full message body for the second approved sender. -/
def fullB : MailM := ⟨"m2".toList, 2, "b@y.com".toList, "Body B".toList⟩

/-- Full-message fetch collaborator for the failure scenario. -/
def fetchFullEx (i : Str) : MailM := if i = "m1".toList then fullAlice else fullB

/-- Per-message processing for the failure scenario: the first approved
message processes successfully (cleaned body `"clean"`), the second one
raises during extraction. -/
def processOneEx (m : MailM) : Except PyError (PMailM × List StageAuditM) :=
  if m.sender = "Alice <a@x.com>".toList then
    Except.ok (⟨{ m with body := "clean".toList }, m.id, 10, 2, []⟩, [])
  else Except.error PyError.collaboratorError

/-- C1: the claim fails on the code.  In the spec's end-to-end scenario — 3
fetched messages, 2 approved, the second approved message raising during
extraction — `process_emails` does not catch the error: the exception
propagates out of the loop (there is no `try/except` at `mail_processor.py`
lines 143-186), the run audit of line 188-197 is never persisted and no
count is returned; only the first message's upload has happened.  The spec
requires the error to be caught, one RunAudit persisted with
`total_emails_fetched == 3`, `total_emails_processed == 1`, and `1`
returned. -/
theorem process_emails_failure_propagates :
    process_emails ["a@x.com".toList, "b@y.com".toList] [mailAlice, mailB, mailBad]
      "c".toList fetchFullEx processOneEx
      = Except.error (PyError.collaboratorError, [⟨"m1.json".toList, "c".toList, 5⟩]) := by
  rfl

/-- `knowledge_database.py` line 12. -/
def CONCEPT_LABEL : Str := "Concept".toList

/-- `knowledge_database.py` line 13. -/
def KEYWORD_LABEL : Str := "Keyword".toList

/-- `knowledge_database.py` line 14. -/
def URL_LABEL : Str := "URL".toList

/-- `knowledge_database.py` line 15. -/
def WEBSITE_LABEL : Str := "Website".toList

/-- `knowledge_database.py` line 16. -/
def EMAIL_LABEL : Str := "Email".toList

/-- `knowledge_database.py` line 17. -/
def SOURCE_LABEL : Str := "Source".toList

/-- `knowledge_database.py` line 24. -/
def REPRESENTS_RELATIONSHIP : Str := "REPRESENTS".toList

/-- `knowledge_database.py` line 25. -/
def DESCRIBES_RELATIONSHIP : Str := "DESCRIBES".toList

/-- `knowledge_database.py` line 26. -/
def CONTAINS_RELATIONSHIP : Str := "CONTAINS".toList

/-- `knowledge_database.py` line 27. -/
def HOSTS_RELATIONSHIP : Str := "HOSTS".toList

/-- `knowledge_database.py` line 28. -/
def SENDS_RELATIONSHIP : Str := "SENDS".toList

/-- A graph node as created by the `merge(...)` calls of `add_knowledge`:
its label set, its `name` property, its optional `topic` property (only
Concept merges set one) and the `created_at` property stamped by
`ON CREATE SET`. -/
structure NodeM where
  labels : List Str
  nname : Str
  topic : Option Str
  createdAt : Str
deriving DecidableEq

/-- A Cypher node pattern as used by the `merge`/`match` clauses: labels
plus the constrained properties (`topic = none` leaves the topic
unconstrained, as in the relationship queries' `MATCH` on name only). -/
structure NPat where
  labels : List Str
  nname : Str
  topic : Option Str
deriving DecidableEq

/-- A directed typed edge; endpoints are node values (nodes are never
mutated after creation, `ON CREATE` being the only property write). -/
structure EdgeM where
  src : NodeM
  rel : Str
  dst : NodeM
deriving DecidableEq

/-- The graph state: node list and edge list in creation order. -/
structure GraphM where
  nodes : List NodeM
  edges : List EdgeM
deriving DecidableEq

/-- Cypher pattern matching: the node carries every pattern label and agrees
on every constrained property. -/
def nodeMatches (p : NPat) (n : NodeM) : Bool :=
  p.labels.all (fun l => n.labels.contains l) && p.nname == n.nname &&
    (match p.topic with
     | none => true
     | some t => n.topic == some t)

/-- The node a `MATCH`/`MERGE` clause binds for a pattern (at most one node
can match under the uniqueness constraints of
`create_constraints_and_indexes`; the model takes the first). -/
def findNode (g : GraphM) (p : NPat) : Option NodeM :=
  g.nodes.find? (nodeMatches p)

/-- Cypher `MERGE (n:...) ON CREATE SET n.created_at = ts`: no-op when the
pattern matches, otherwise create the node and stamp `created_at`. -/
def mergeNode (g : GraphM) (p : NPat) (ts : Str) : GraphM :=
  match findNode g p with
  | some _ => g
  | none => { g with nodes := g.nodes ++ [⟨p.labels, p.nname, p.topic, ts⟩] }

/-- Cypher `MERGE (a)-[:r]->(b)` on bound endpoints: no-op when the edge
exists, otherwise create it. -/
def mergeEdge (g : GraphM) (s : NodeM) (r : Str) (d : NodeM) : GraphM :=
  if (⟨s, r, d⟩ : EdgeM) ∈ g.edges then g else { g with edges := g.edges ++ [⟨s, r, d⟩] }

/-- Merge pattern of the Concept node (`knowledge_database.py` lines
136-140): labels `[Concept, database]`, properties `name` and `topic`. -/
def conceptMergePat (db : Str) (c : KnowledgeConcept) : NPat :=
  ⟨[CONCEPT_LABEL, db], c.name, some c.topic⟩

/-- Match pattern of the Concept node in the relationship queries (lines
167-170 and 222-225): labels and `name` only. -/
def conceptMatchPat (db nm : Str) : NPat := ⟨[CONCEPT_LABEL, db], nm, none⟩

/-- Pattern of a URL node (lines 148-151). -/
def urlPat (db url : Str) : NPat := ⟨[URL_LABEL, db], url, none⟩

/-- Pattern of a Website node (lines 157-160). -/
def websitePat (db w : Str) : NPat := ⟨[WEBSITE_LABEL, db], w, none⟩

/-- Pattern of a Keyword node (lines 194-197). -/
def keywordPat (db kw : Str) : NPat := ⟨[KEYWORD_LABEL, db], kw, none⟩

/-- Pattern of an Email node (lines 203-206). -/
def emailPat (db eid : Str) : NPat := ⟨[EMAIL_LABEL, db], eid, none⟩

/-- Pattern of a Source node (lines 212-215). -/
def sourcePat (db src : Str) : NPat := ⟨[SOURCE_LABEL, db], src, none⟩

/-- `knowledge_database.py` lines 167-191: match the Concept, URL and
Website nodes, then `MERGE (url)-[:DESCRIBES]->(concept)` and
`MERGE (website)-[:HOSTS]->(url)`.  When a `MATCH` binds nothing the
statement does nothing. -/
def urlRelQuery (db : Str) (g : GraphM) (cname url website : Str) : GraphM :=
  match findNode g (conceptMatchPat db cname), findNode g (urlPat db url),
      findNode g (websitePat db website) with
  | some ud, some us, some ws =>
    mergeEdge (mergeEdge g us DESCRIBES_RELATIONSHIP ud) ws HOSTS_RELATIONSHIP us
  | _, _, _ => g

/-- `knowledge_database.py` lines 222-256: match the Concept, Keyword, Email
and Source nodes, then merge `REPRESENTS`, `CONTAINS` and `SENDS` edges. -/
def kwRelQuery (db : Str) (g : GraphM) (cname kw emailId source : Str) : GraphM :=
  match findNode g (conceptMatchPat db cname), findNode g (keywordPat db kw),
      findNode g (emailPat db emailId), findNode g (sourcePat db source) with
  | some kd, some ks, some es, some ss =>
    mergeEdge (mergeEdge (mergeEdge g ks REPRESENTS_RELATIONSHIP kd)
      es CONTAINS_RELATIONSHIP ks) ss SENDS_RELATIONSHIP es
  | _, _, _, _ => g

/-- Body of the URL loop (`knowledge_database.py` lines 146-191): derive the
website, merge the URL and Website nodes, then merge the edges. -/
def processUrl (db ts cname : Str) (g : GraphM) (url : Str) : GraphM :=
  urlRelQuery db
    (mergeNode (mergeNode g (urlPat db url) ts)
      (websitePat db (extract_website_from_url url)) ts)
    cname url (extract_website_from_url url)

/-- Body of the keyword loop (`knowledge_database.py` lines 193-256): merge
the Keyword, Email and Source nodes, then merge the provenance edges. -/
def processKeyword (db ts emailId source cname : Str) (g : GraphM) (kw : Str) : GraphM :=
  kwRelQuery db
    (mergeNode (mergeNode (mergeNode g (keywordPat db kw) ts)
      (emailPat db emailId) ts) (sourcePat db source) ts)
    cname kw emailId source

/-- Per-concept body of `add_knowledge` (lines 135-256): merge the Concept
node, then process its URLs, then its keywords. -/
def processConcept (db emailId ts source : Str) (g : GraphM) (c : KnowledgeConcept) :
    GraphM :=
  c.keywords.foldl (processKeyword db ts emailId source c.name)
    (c.urls.foldl (processUrl db ts c.name)
      (mergeNode g (conceptMergePat db c) ts))

/-- `knowledge_database.py` lines 127-256 (`add_knowledge`): ingest every
concept into the graph of database partition `db`; `ts` is the
`email_datetime.isoformat()` string stamped on first creation. -/
def add_knowledge (db : Str) (g : GraphM) (concepts : List KnowledgeConcept)
    (email_id ts source : Str) : GraphM :=
  concepts.foldl (processConcept db email_id ts source) g

/-- `g2` extends `g1` by appended nodes satisfying `pn` and appended edges
satisfying `pe` (the merge operations only ever append). -/
def ExtP (pn : NodeM → Prop) (pe : EdgeM → Prop) (g1 g2 : GraphM) : Prop :=
  (∃ ns, g2.nodes = g1.nodes ++ ns ∧ ∀ n ∈ ns, pn n) ∧
  (∃ es, g2.edges = g1.edges ++ es ∧ ∀ e ∈ es, pe e)

/-- Plain graph extension. -/
def GExt (g1 g2 : GraphM) : Prop := ExtP (fun _ => True) (fun _ => True) g1 g2

theorem ExtP_refl (pn : NodeM → Prop) (pe : EdgeM → Prop) (g : GraphM) :
    ExtP pn pe g g :=
  ⟨⟨[], by simp⟩, ⟨[], by simp⟩⟩

theorem ExtP_trans {pn pe} {g1 g2 g3 : GraphM}
    (h1 : ExtP pn pe g1 g2) (h2 : ExtP pn pe g2 g3) : ExtP pn pe g1 g3 := by
  obtain ⟨⟨ns1, hn1, hpn1⟩, ⟨es1, he1, hpe1⟩⟩ := h1
  obtain ⟨⟨ns2, hn2, hpn2⟩, ⟨es2, he2, hpe2⟩⟩ := h2
  refine ⟨⟨ns1 ++ ns2, ?_, ?_⟩, ⟨es1 ++ es2, ?_, ?_⟩⟩
  · rw [hn2, hn1, List.append_assoc]
  · intro n hn
    rcases List.mem_append.mp hn with h | h
    · exact hpn1 n h
    · exact hpn2 n h
  · rw [he2, he1, List.append_assoc]
  · intro e he
    rcases List.mem_append.mp he with h | h
    · exact hpe1 e h
    · exact hpe2 e h

theorem ExtP_weaken {pn pe pn' pe' : _} {g1 g2 : GraphM}
    (hn : ∀ n, pn n → pn' n) (he : ∀ e, pe e → pe' e)
    (h : ExtP pn pe g1 g2) : ExtP pn' pe' g1 g2 := by
  obtain ⟨⟨ns, h1, h2⟩, ⟨es, h3, h4⟩⟩ := h
  exact ⟨⟨ns, h1, fun n hm => hn n (h2 n hm)⟩, ⟨es, h3, fun e hm => he e (h4 e hm)⟩⟩

theorem GExt_of_ExtP {pn pe} {g1 g2 : GraphM} (h : ExtP pn pe g1 g2) : GExt g1 g2 :=
  ExtP_weaken (fun _ _ => trivial) (fun _ _ => trivial) h

theorem find?_append_some {α : Type} {p : α → Bool} {l : List α} {x : α}
    (t : List α) (h : l.find? p = some x) : (l ++ t).find? p = some x := by
  induction l with
  | nil => simp [List.find?] at h
  | cons a as ih =>
    by_cases hp : p a
    · rw [List.find?_cons_of_pos _ hp] at h
      simpa [List.find?_cons_of_pos _ hp] using h
    · rw [List.find?_cons_of_neg _ hp] at h
      simpa [List.find?_cons_of_neg _ hp] using ih h

theorem find?_isSome_of_exists {α : Type} {p : α → Bool} {l : List α}
    (h : ∃ x ∈ l, p x = true) : (l.find? p).isSome = true := by
  induction l with
  | nil => simp at h
  | cons a as ih =>
    by_cases hp : p a
    · simp [List.find?_cons_of_pos _ hp]
    · rw [List.find?_cons_of_neg _ hp]
      obtain ⟨x, hm, hx⟩ := h
      rcases List.mem_cons.mp hm with rfl | hm2
      · exact absurd hx hp
      · exact ih ⟨x, hm2, hx⟩

/-- A node pattern has been established in `g`: a `MATCH`/`MERGE` on the
pattern binds a node. -/
def NodeEst (g : GraphM) (p : NPat) : Prop := (findNode g p).isSome = true

theorem findNode_mono {g1 g2 : GraphM} {p : NPat} {n : NodeM}
    (hx : GExt g1 g2) (h : findNode g1 p = some n) : findNode g2 p = some n := by
  obtain ⟨⟨ns, hn, -⟩, -⟩ := hx
  unfold findNode at h ⊢
  rw [hn]
  exact find?_append_some ns h

theorem NodeEst_mono {g1 g2 : GraphM} {p : NPat} (hx : GExt g1 g2)
    (h : NodeEst g1 p) : NodeEst g2 p := by
  obtain ⟨n, hn⟩ := Option.isSome_iff_exists.mp h
  exact Option.isSome_iff_exists.mpr ⟨n, findNode_mono hx hn⟩

theorem edge_mem_mono {g1 g2 : GraphM} {e : EdgeM} (hx : GExt g1 g2)
    (h : e ∈ g1.edges) : e ∈ g2.edges := by
  obtain ⟨-, ⟨es, he, -⟩⟩ := hx
  rw [he]
  exact List.mem_append_left es h

theorem contains_of_mem {α : Type} [BEq α] [LawfulBEq α] {l : List α} {a : α}
    (h : a ∈ l) : l.contains a = true :=
  List.elem_iff.mpr h

theorem nodeMatches_self (p : NPat) (ts : Str) :
    nodeMatches p ⟨p.labels, p.nname, p.topic, ts⟩ = true := by
  unfold nodeMatches
  have h1 : (p.labels.all fun l => p.labels.contains l) = true := by
    rw [List.all_eq_true]
    intro l hl
    exact contains_of_mem hl
  rw [h1]
  cases p.topic <;> simp

theorem mergeNode_extP (g : GraphM) (p : NPat) (ts : Str) :
    ExtP (fun n => n.labels = p.labels) (fun _ => False) g (mergeNode g p ts) := by
  unfold mergeNode
  cases findNode g p with
  | some n => exact ExtP_refl _ _ g
  | none =>
    exact ⟨⟨[⟨p.labels, p.nname, p.topic, ts⟩], rfl, by simp⟩, ⟨[], by simp⟩⟩

theorem mergeNode_gext (g : GraphM) (p : NPat) (ts : Str) :
    GExt g (mergeNode g p ts) := GExt_of_ExtP (mergeNode_extP g p ts)

theorem mergeNode_est (g : GraphM) (p : NPat) (ts : Str) :
    NodeEst (mergeNode g p ts) p := by
  unfold NodeEst mergeNode
  cases h : findNode g p with
  | some n => simp [h]
  | none =>
    unfold findNode at h ⊢
    simp only
    apply find?_isSome_of_exists
    refine ⟨⟨p.labels, p.nname, p.topic, ts⟩, ?_, nodeMatches_self p ts⟩
    simp

theorem mergeNode_noop {g : GraphM} {p : NPat} (ts : Str) (h : NodeEst g p) :
    mergeNode g p ts = g := by
  unfold NodeEst at h
  unfold mergeNode
  obtain ⟨n, hn⟩ := Option.isSome_iff_exists.mp h
  rw [hn]

theorem mergeEdge_extP (g : GraphM) (s : NodeM) (r : Str) (d : NodeM) :
    ExtP (fun _ => False) (fun e => e = ⟨s, r, d⟩) g (mergeEdge g s r d) := by
  unfold mergeEdge
  by_cases h : (⟨s, r, d⟩ : EdgeM) ∈ g.edges
  · simp only [h, if_true]
    exact ExtP_refl _ _ g
  · simp only [h, if_false]
    exact ⟨⟨[], by simp⟩, ⟨[⟨s, r, d⟩], rfl, by simp⟩⟩

theorem mergeEdge_gext (g : GraphM) (s : NodeM) (r : Str) (d : NodeM) :
    GExt g (mergeEdge g s r d) := GExt_of_ExtP (mergeEdge_extP g s r d)

theorem mergeEdge_nodes (g : GraphM) (s : NodeM) (r : Str) (d : NodeM) :
    (mergeEdge g s r d).nodes = g.nodes := by
  unfold mergeEdge
  by_cases h : (⟨s, r, d⟩ : EdgeM) ∈ g.edges <;> simp [h]

theorem mergeEdge_mem (g : GraphM) (s : NodeM) (r : Str) (d : NodeM) :
    (⟨s, r, d⟩ : EdgeM) ∈ (mergeEdge g s r d).edges := by
  unfold mergeEdge
  by_cases h : (⟨s, r, d⟩ : EdgeM) ∈ g.edges
  · simpa [h] using h
  · simp [h]

theorem mergeEdge_noop {g : GraphM} {s : NodeM} {r : Str} {d : NodeM}
    (h : (⟨s, r, d⟩ : EdgeM) ∈ g.edges) : mergeEdge g s r d = g := by
  unfold mergeEdge
  simp [h]

theorem findNode_mergeEdge (g : GraphM) (s : NodeM) (r : Str) (d : NodeM)
    (p : NPat) : findNode (mergeEdge g s r d) p = findNode g p := by
  unfold findNode
  rw [mergeEdge_nodes]

/-- The facts a URL iteration leaves behind: the three node patterns bind,
and the `DESCRIBES` and `HOSTS` edges among the bound nodes exist. -/
def UrlRelEst (db : Str) (g : GraphM) (cname url : Str) : Prop :=
  ∃ ud us ws,
    findNode g (conceptMatchPat db cname) = some ud ∧
    findNode g (urlPat db url) = some us ∧
    findNode g (websitePat db (extract_website_from_url url)) = some ws ∧
    (⟨us, DESCRIBES_RELATIONSHIP, ud⟩ : EdgeM) ∈ g.edges ∧
    (⟨ws, HOSTS_RELATIONSHIP, us⟩ : EdgeM) ∈ g.edges

theorem UrlRelEst_mono {db : Str} {g1 g2 : GraphM} {cname url : Str}
    (hx : GExt g1 g2) (h : UrlRelEst db g1 cname url) : UrlRelEst db g2 cname url := by
  obtain ⟨ud, us, ws, h1, h2, h3, h4, h5⟩ := h
  exact ⟨ud, us, ws, findNode_mono hx h1, findNode_mono hx h2, findNode_mono hx h3,
    edge_mem_mono hx h4, edge_mem_mono hx h5⟩

theorem processUrl_est {db : Str} {g : GraphM} {cname : Str} (ts url : Str)
    (h : NodeEst g (conceptMatchPat db cname)) :
    UrlRelEst db (processUrl db ts cname g url) cname url := by
  have hx1 := mergeNode_gext g (urlPat db url) ts
  have hu1 : NodeEst (mergeNode g (urlPat db url) ts) (urlPat db url) :=
    mergeNode_est g (urlPat db url) ts
  have hx2 := mergeNode_gext (mergeNode g (urlPat db url) ts)
    (websitePat db (extract_website_from_url url)) ts
  have hu2 : NodeEst (mergeNode (mergeNode g (urlPat db url) ts)
      (websitePat db (extract_website_from_url url)) ts) (urlPat db url) :=
    NodeEst_mono hx2 hu1
  have hw2 : NodeEst (mergeNode (mergeNode g (urlPat db url) ts)
      (websitePat db (extract_website_from_url url)) ts)
      (websitePat db (extract_website_from_url url)) :=
    mergeNode_est _ _ ts
  have hc2 : NodeEst (mergeNode (mergeNode g (urlPat db url) ts)
      (websitePat db (extract_website_from_url url)) ts)
      (conceptMatchPat db cname) :=
    NodeEst_mono hx2 (NodeEst_mono hx1 h)
  obtain ⟨ud, hud⟩ := Option.isSome_iff_exists.mp hc2
  obtain ⟨us, hus⟩ := Option.isSome_iff_exists.mp hu2
  obtain ⟨ws, hws⟩ := Option.isSome_iff_exists.mp hw2
  unfold processUrl urlRelQuery
  rw [hud, hus, hws]
  refine ⟨ud, us, ws, ?_, ?_, ?_, ?_, ?_⟩
  · rw [findNode_mergeEdge, findNode_mergeEdge]
    exact hud
  · rw [findNode_mergeEdge, findNode_mergeEdge]
    exact hus
  · rw [findNode_mergeEdge, findNode_mergeEdge]
    exact hws
  · exact edge_mem_mono (mergeEdge_gext _ ws HOSTS_RELATIONSHIP us)
      (mergeEdge_mem _ us DESCRIBES_RELATIONSHIP ud)
  · exact mergeEdge_mem _ ws HOSTS_RELATIONSHIP us

theorem processUrl_noop {db : Str} {g : GraphM} {cname : Str} (ts : Str) {url : Str}
    (h : UrlRelEst db g cname url) : processUrl db ts cname g url = g := by
  obtain ⟨ud, us, ws, hud, hus, hws, he1, he2⟩ := h
  have hmu : mergeNode g (urlPat db url) ts = g :=
    mergeNode_noop ts (Option.isSome_iff_exists.mpr ⟨us, hus⟩)
  have hmw : mergeNode g (websitePat db (extract_website_from_url url)) ts = g :=
    mergeNode_noop ts (Option.isSome_iff_exists.mpr ⟨ws, hws⟩)
  unfold processUrl
  rw [hmu, hmw]
  unfold urlRelQuery
  rw [hud, hus, hws]
  show mergeEdge (mergeEdge g us DESCRIBES_RELATIONSHIP ud) ws HOSTS_RELATIONSHIP us = g
  rw [mergeEdge_noop he1]
  exact mergeEdge_noop he2

theorem urlRelQuery_gext (db : Str) (g : GraphM) (cname url website : Str) :
    GExt g (urlRelQuery db g cname url website) := by
  unfold urlRelQuery
  rcases hc : findNode g (conceptMatchPat db cname) with _ | ud
  · exact ExtP_refl _ _ g
  rcases hu : findNode g (urlPat db url) with _ | us
  · exact ExtP_refl _ _ g
  rcases hw : findNode g (websitePat db website) with _ | ws
  · exact ExtP_refl _ _ g
  exact ExtP_trans (mergeEdge_gext _ _ _ _) (mergeEdge_gext _ _ _ _)

theorem processUrl_gext (db ts cname : Str) (g : GraphM) (url : Str) :
    GExt g (processUrl db ts cname g url) := by
  unfold processUrl
  exact ExtP_trans (mergeNode_gext _ _ _) (ExtP_trans (mergeNode_gext _ _ _)
    (urlRelQuery_gext _ _ _ _ _))

/-- The facts a keyword iteration leaves behind: the four node patterns
bind, and the `REPRESENTS`, `CONTAINS` and `SENDS` edges among the bound
nodes exist. -/
def KwRelEst (db : Str) (g : GraphM) (cname kw emailId source : Str) : Prop :=
  ∃ kd ks es ss,
    findNode g (conceptMatchPat db cname) = some kd ∧
    findNode g (keywordPat db kw) = some ks ∧
    findNode g (emailPat db emailId) = some es ∧
    findNode g (sourcePat db source) = some ss ∧
    (⟨ks, REPRESENTS_RELATIONSHIP, kd⟩ : EdgeM) ∈ g.edges ∧
    (⟨es, CONTAINS_RELATIONSHIP, ks⟩ : EdgeM) ∈ g.edges ∧
    (⟨ss, SENDS_RELATIONSHIP, es⟩ : EdgeM) ∈ g.edges

theorem KwRelEst_mono {db : Str} {g1 g2 : GraphM} {cname kw emailId source : Str}
    (hx : GExt g1 g2) (h : KwRelEst db g1 cname kw emailId source) :
    KwRelEst db g2 cname kw emailId source := by
  obtain ⟨kd, ks, es, ss, h1, h2, h3, h4, h5, h6, h7⟩ := h
  exact ⟨kd, ks, es, ss, findNode_mono hx h1, findNode_mono hx h2,
    findNode_mono hx h3, findNode_mono hx h4, edge_mem_mono hx h5,
    edge_mem_mono hx h6, edge_mem_mono hx h7⟩

theorem processKeyword_est {db : Str} {g : GraphM} {cname : Str}
    (ts emailId source kw : Str) (h : NodeEst g (conceptMatchPat db cname)) :
    KwRelEst db (processKeyword db ts emailId source cname g kw) cname kw emailId source := by
  have hx1 := mergeNode_gext g (keywordPat db kw) ts
  have hx2 := mergeNode_gext (mergeNode g (keywordPat db kw) ts) (emailPat db emailId) ts
  have hx3 := mergeNode_gext (mergeNode (mergeNode g (keywordPat db kw) ts)
    (emailPat db emailId) ts) (sourcePat db source) ts
  have hk : NodeEst (mergeNode (mergeNode (mergeNode g (keywordPat db kw) ts)
      (emailPat db emailId) ts) (sourcePat db source) ts) (keywordPat db kw) :=
    NodeEst_mono hx3 (NodeEst_mono hx2 (mergeNode_est g (keywordPat db kw) ts))
  have he : NodeEst (mergeNode (mergeNode (mergeNode g (keywordPat db kw) ts)
      (emailPat db emailId) ts) (sourcePat db source) ts) (emailPat db emailId) :=
    NodeEst_mono hx3 (mergeNode_est _ (emailPat db emailId) ts)
  have hs : NodeEst (mergeNode (mergeNode (mergeNode g (keywordPat db kw) ts)
      (emailPat db emailId) ts) (sourcePat db source) ts) (sourcePat db source) :=
    mergeNode_est _ (sourcePat db source) ts
  have hc : NodeEst (mergeNode (mergeNode (mergeNode g (keywordPat db kw) ts)
      (emailPat db emailId) ts) (sourcePat db source) ts) (conceptMatchPat db cname) :=
    NodeEst_mono hx3 (NodeEst_mono hx2 (NodeEst_mono hx1 h))
  obtain ⟨kd, hkd⟩ := Option.isSome_iff_exists.mp hc
  obtain ⟨ks, hks⟩ := Option.isSome_iff_exists.mp hk
  obtain ⟨es, hes⟩ := Option.isSome_iff_exists.mp he
  obtain ⟨ss, hss⟩ := Option.isSome_iff_exists.mp hs
  unfold processKeyword kwRelQuery
  rw [hkd, hks, hes, hss]
  refine ⟨kd, ks, es, ss, ?_, ?_, ?_, ?_, ?_, ?_, ?_⟩
  · rw [findNode_mergeEdge, findNode_mergeEdge, findNode_mergeEdge]
    exact hkd
  · rw [findNode_mergeEdge, findNode_mergeEdge, findNode_mergeEdge]
    exact hks
  · rw [findNode_mergeEdge, findNode_mergeEdge, findNode_mergeEdge]
    exact hes
  · rw [findNode_mergeEdge, findNode_mergeEdge, findNode_mergeEdge]
    exact hss
  · exact edge_mem_mono (mergeEdge_gext _ ss SENDS_RELATIONSHIP es)
      (edge_mem_mono (mergeEdge_gext _ es CONTAINS_RELATIONSHIP ks)
        (mergeEdge_mem _ ks REPRESENTS_RELATIONSHIP kd))
  · exact edge_mem_mono (mergeEdge_gext _ ss SENDS_RELATIONSHIP es)
      (mergeEdge_mem _ es CONTAINS_RELATIONSHIP ks)
  · exact mergeEdge_mem _ ss SENDS_RELATIONSHIP es

theorem processKeyword_noop {db : Str} {g : GraphM} {cname : Str}
    (ts : Str) {emailId source kw : Str}
    (h : KwRelEst db g cname kw emailId source) :
    processKeyword db ts emailId source cname g kw = g := by
  obtain ⟨kd, ks, es, ss, hkd, hks, hes, hss, he1, he2, he3⟩ := h
  have hmk : mergeNode g (keywordPat db kw) ts = g :=
    mergeNode_noop ts (Option.isSome_iff_exists.mpr ⟨ks, hks⟩)
  have hme : mergeNode g (emailPat db emailId) ts = g :=
    mergeNode_noop ts (Option.isSome_iff_exists.mpr ⟨es, hes⟩)
  have hms : mergeNode g (sourcePat db source) ts = g :=
    mergeNode_noop ts (Option.isSome_iff_exists.mpr ⟨ss, hss⟩)
  unfold processKeyword
  rw [hmk, hme, hms]
  unfold kwRelQuery
  rw [hkd, hks, hes, hss]
  show mergeEdge (mergeEdge (mergeEdge g ks REPRESENTS_RELATIONSHIP kd)
    es CONTAINS_RELATIONSHIP ks) ss SENDS_RELATIONSHIP es = g
  rw [mergeEdge_noop he1, mergeEdge_noop he2]
  exact mergeEdge_noop he3

theorem kwRelQuery_gext (db : Str) (g : GraphM) (cname kw emailId source : Str) :
    GExt g (kwRelQuery db g cname kw emailId source) := by
  unfold kwRelQuery
  rcases hc : findNode g (conceptMatchPat db cname) with _ | kd
  · exact ExtP_refl _ _ g
  rcases hk : findNode g (keywordPat db kw) with _ | ks
  · exact ExtP_refl _ _ g
  rcases he : findNode g (emailPat db emailId) with _ | es
  · exact ExtP_refl _ _ g
  rcases hs : findNode g (sourcePat db source) with _ | ss
  · exact ExtP_refl _ _ g
  exact ExtP_trans (mergeEdge_gext _ _ _ _)
    (ExtP_trans (mergeEdge_gext _ _ _ _) (mergeEdge_gext _ _ _ _))

theorem processKeyword_gext (db ts emailId source cname : Str) (g : GraphM) (kw : Str) :
    GExt g (processKeyword db ts emailId source cname g kw) := by
  unfold processKeyword
  exact ExtP_trans (mergeNode_gext _ _ _) (ExtP_trans (mergeNode_gext _ _ _)
    (ExtP_trans (mergeNode_gext _ _ _) (kwRelQuery_gext _ _ _ _ _ _)))

theorem foldl_gext {α : Type} (f : GraphM → α → GraphM)
    (h : ∀ g a, GExt g (f g a)) :
    ∀ (l : List α) (g : GraphM), GExt g (l.foldl f g) := by
  intro l
  induction l with
  | nil => intro g; exact ExtP_refl _ _ g
  | cons a as ih =>
    intro g
    rw [List.foldl_cons]
    exact ExtP_trans (h g a) (ih (f g a))

theorem NodeEst_weakenTopic {g : GraphM} {L : List Str} {nm t : Str}
    (h : NodeEst g ⟨L, nm, some t⟩) : NodeEst g (⟨L, nm, none⟩ : NPat) := by
  obtain ⟨x, hx⟩ := Option.isSome_iff_exists.mp h
  have hmem : x ∈ g.nodes := List.mem_of_find?_eq_some hx
  have hmatch : nodeMatches ⟨L, nm, some t⟩ x = true := List.find?_some hx
  apply find?_isSome_of_exists
  refine ⟨x, hmem, ?_⟩
  unfold nodeMatches at hmatch ⊢
  simp only [Bool.and_eq_true] at hmatch ⊢
  exact ⟨hmatch.1, trivial⟩

theorem foldUrls_est (db ts cname : Str) (urls : List Str) :
    ∀ (g : GraphM), NodeEst g (conceptMatchPat db cname) →
    NodeEst (urls.foldl (processUrl db ts cname) g) (conceptMatchPat db cname) ∧
    GExt g (urls.foldl (processUrl db ts cname) g) ∧
    ∀ u ∈ urls, UrlRelEst db (urls.foldl (processUrl db ts cname) g) cname u := by
  induction urls with
  | nil =>
    intro g h
    exact ⟨h, ExtP_refl _ _ g, by simp⟩
  | cons u us ih =>
    intro g h
    rw [List.foldl_cons]
    have hst : UrlRelEst db (processUrl db ts cname g u) cname u :=
      processUrl_est ts u h
    have hx : GExt g (processUrl db ts cname g u) := processUrl_gext db ts cname g u
    obtain ⟨hfin, hxf, hall⟩ := ih (processUrl db ts cname g u) (NodeEst_mono hx h)
    refine ⟨hfin, ExtP_trans hx hxf, ?_⟩
    intro v hv
    rcases List.mem_cons.mp hv with rfl | hv2
    · exact UrlRelEst_mono hxf hst
    · exact hall v hv2

theorem foldKws_est (db ts emailId source cname : Str) (kws : List Str) :
    ∀ (g : GraphM), NodeEst g (conceptMatchPat db cname) →
    NodeEst (kws.foldl (processKeyword db ts emailId source cname) g)
      (conceptMatchPat db cname) ∧
    GExt g (kws.foldl (processKeyword db ts emailId source cname) g) ∧
    ∀ kw ∈ kws, KwRelEst db (kws.foldl (processKeyword db ts emailId source cname) g)
      cname kw emailId source := by
  induction kws with
  | nil =>
    intro g h
    exact ⟨h, ExtP_refl _ _ g, by simp⟩
  | cons kw rest ih =>
    intro g h
    rw [List.foldl_cons]
    have hst : KwRelEst db (processKeyword db ts emailId source cname g kw)
        cname kw emailId source := processKeyword_est ts emailId source kw h
    have hx : GExt g (processKeyword db ts emailId source cname g kw) :=
      processKeyword_gext db ts emailId source cname g kw
    obtain ⟨hfin, hxf, hall⟩ :=
      ih (processKeyword db ts emailId source cname g kw) (NodeEst_mono hx h)
    refine ⟨hfin, ExtP_trans hx hxf, ?_⟩
    intro v hv
    rcases List.mem_cons.mp hv with rfl | hv2
    · exact KwRelEst_mono hxf hst
    · exact hall v hv2

/-- Everything `processConcept` guarantees for a concept `c`: its Concept
node binds under the merge pattern, and every URL / keyword group of `c` is
fully established. -/
def ConceptEst (db emailId source : Str) (g : GraphM) (c : KnowledgeConcept) : Prop :=
  NodeEst g (conceptMergePat db c) ∧
  (∀ u ∈ c.urls, UrlRelEst db g c.name u) ∧
  (∀ kw ∈ c.keywords, KwRelEst db g c.name kw emailId source)

theorem ConceptEst_mono {db emailId source : Str} {g1 g2 : GraphM}
    {c : KnowledgeConcept} (hx : GExt g1 g2)
    (h : ConceptEst db emailId source g1 c) : ConceptEst db emailId source g2 c :=
  ⟨NodeEst_mono hx h.1, fun u hu => UrlRelEst_mono hx (h.2.1 u hu),
    fun kw hkw => KwRelEst_mono hx (h.2.2 kw hkw)⟩

theorem processConcept_gext (db emailId ts source : Str) (g : GraphM)
    (c : KnowledgeConcept) : GExt g (processConcept db emailId ts source g c) := by
  unfold processConcept
  have h1 := mergeNode_gext g (conceptMergePat db c) ts
  have h2 := foldl_gext (processUrl db ts c.name)
    (fun g1 u => processUrl_gext db ts c.name g1 u) c.urls
    (mergeNode g (conceptMergePat db c) ts)
  have h3 := foldl_gext (processKeyword db ts emailId source c.name)
    (fun g1 kw => processKeyword_gext db ts emailId source c.name g1 kw) c.keywords
    (c.urls.foldl (processUrl db ts c.name) (mergeNode g (conceptMergePat db c) ts))
  exact ExtP_trans h1 (ExtP_trans h2 h3)

theorem processConcept_est (db emailId ts source : Str) (g : GraphM)
    (c : KnowledgeConcept) :
    ConceptEst db emailId source (processConcept db emailId ts source g c) c := by
  have hm : NodeEst (mergeNode g (conceptMergePat db c) ts) (conceptMergePat db c) :=
    mergeNode_est g (conceptMergePat db c) ts
  have hmatch : NodeEst (mergeNode g (conceptMergePat db c) ts)
      (conceptMatchPat db c.name) := NodeEst_weakenTopic hm
  obtain ⟨hc2, hx2, hurls⟩ :=
    foldUrls_est db ts c.name c.urls (mergeNode g (conceptMergePat db c) ts) hmatch
  obtain ⟨hc3, hx3, hkws⟩ := foldKws_est db ts emailId source c.name c.keywords
    (c.urls.foldl (processUrl db ts c.name) (mergeNode g (conceptMergePat db c) ts)) hc2
  unfold processConcept
  refine ⟨NodeEst_mono hx3 (NodeEst_mono hx2 hm), ?_, hkws⟩
  intro u hu
  exact UrlRelEst_mono hx3 (hurls u hu)

theorem foldUrls_noop {db cname : Str} (ts : Str) {g : GraphM} (urls : List Str)
    (h : ∀ u ∈ urls, UrlRelEst db g cname u) :
    urls.foldl (processUrl db ts cname) g = g := by
  induction urls with
  | nil => rfl
  | cons u us ih =>
    rw [List.foldl_cons, processUrl_noop ts (h u (List.mem_cons_self u us))]
    exact ih fun v hv => h v (List.mem_cons_of_mem u hv)

theorem foldKws_noop {db emailId source cname : Str} (ts : Str) {g : GraphM}
    (kws : List Str) (h : ∀ kw ∈ kws, KwRelEst db g cname kw emailId source) :
    kws.foldl (processKeyword db ts emailId source cname) g = g := by
  induction kws with
  | nil => rfl
  | cons kw rest ih =>
    rw [List.foldl_cons, processKeyword_noop ts (h kw (List.mem_cons_self kw rest))]
    exact ih fun v hv => h v (List.mem_cons_of_mem kw hv)

theorem processConcept_noop {db emailId source : Str} (ts : Str) {g : GraphM}
    {c : KnowledgeConcept} (h : ConceptEst db emailId source g c) :
    processConcept db emailId ts source g c = g := by
  unfold processConcept
  rw [mergeNode_noop ts h.1, foldUrls_noop ts c.urls h.2.1, foldKws_noop ts c.keywords h.2.2]

theorem add_knowledge_gext (db : Str) (g : GraphM) (concepts : List KnowledgeConcept)
    (email_id ts source : Str) : GExt g (add_knowledge db g concepts email_id ts source) :=
  foldl_gext _ (fun g1 c => processConcept_gext db email_id ts source g1 c) concepts g

theorem add_knowledge_est (db : Str) (concepts : List KnowledgeConcept)
    (email_id ts source : Str) :
    ∀ (g : GraphM) (c : KnowledgeConcept), c ∈ concepts →
      ConceptEst db email_id source (add_knowledge db g concepts email_id ts source) c := by
  induction concepts with
  | nil =>
    intro g c hc
    simp at hc
  | cons c0 rest ih =>
    intro g c hc
    unfold add_knowledge at ih ⊢
    rw [List.foldl_cons]
    rcases List.mem_cons.mp hc with rfl | hc2
    · have hest := processConcept_est db email_id ts source g c
      have hx : GExt (processConcept db email_id ts source g c)
          (rest.foldl (processConcept db email_id ts source)
            (processConcept db email_id ts source g c)) :=
        foldl_gext _ (fun g1 c1 => processConcept_gext db email_id ts source g1 c1) rest _
      exact ConceptEst_mono hx hest
    · exact ih (processConcept db email_id ts source g c0) c hc2

theorem add_knowledge_noop {db : Str} {g : GraphM} {concepts : List KnowledgeConcept}
    {email_id source : Str} (ts : Str)
    (h : ∀ c ∈ concepts, ConceptEst db email_id source g c) :
    add_knowledge db g concepts email_id ts source = g := by
  induction concepts with
  | nil => rfl
  | cons c rest ih =>
    unfold add_knowledge at ih ⊢
    rw [List.foldl_cons, processConcept_noop ts (h c (List.mem_cons_self c rest))]
    exact ih fun v hv => h v (List.mem_cons_of_mem c hv)

/-- C3: the graph merge is idempotent.  For every partition, starting graph,
concept list, message id and source, running `add_knowledge` a second time —
with an arbitrary (possibly different) timestamp argument — over the graph
produced by the first run leaves that graph exactly unchanged: no second
Concept node, no duplicate edge, and every `created_at` stamped by the first
run (in particular under a different second timestamp) is untouched. -/
theorem add_knowledge_idempotent (db : Str) (g : GraphM)
    (concepts : List KnowledgeConcept) (email_id t1 t2 source : Str) :
    add_knowledge db (add_knowledge db g concepts email_id t1 source)
        concepts email_id t2 source
      = add_knowledge db g concepts email_id t1 source :=
  add_knowledge_noop t2
    (fun c hc => add_knowledge_est db concepts email_id t1 source g c hc)

/-- Node labels producible by the URL side of `add_knowledge` (Concept, URL
and Website nodes of partition `db`). -/
def cuwLabels (db : Str) (n : NodeM) : Prop :=
  n.labels = [CONCEPT_LABEL, db] ∨ n.labels = [URL_LABEL, db] ∨
    n.labels = [WEBSITE_LABEL, db]

/-- Edge kinds producible by the URL side of `add_knowledge`. -/
def dhRel (e : EdgeM) : Prop :=
  e.rel = DESCRIBES_RELATIONSHIP ∨ e.rel = HOSTS_RELATIONSHIP

theorem foldl_extP_mem {α : Type} {pn pe} (f : GraphM → α → GraphM) (l : List α)
    (h : ∀ a ∈ l, ∀ g, ExtP pn pe g (f g a)) :
    ∀ g : GraphM, ExtP pn pe g (l.foldl f g) := by
  induction l with
  | nil => intro g; exact ExtP_refl _ _ g
  | cons a as ih =>
    intro g
    rw [List.foldl_cons]
    exact ExtP_trans (h a (List.mem_cons_self a as) g)
      (ih (fun b hb g1 => h b (List.mem_cons_of_mem a hb) g1) (f g a))

theorem urlRelQuery_extP (db : Str) (g : GraphM) (cname url website : Str) :
    ExtP (fun _ => False) dhRel g (urlRelQuery db g cname url website) := by
  unfold urlRelQuery
  rcases hc : findNode g (conceptMatchPat db cname) with _ | ud
  · exact ExtP_refl _ _ g
  rcases hu : findNode g (urlPat db url) with _ | us
  · exact ExtP_refl _ _ g
  rcases hw : findNode g (websitePat db website) with _ | ws
  · exact ExtP_refl _ _ g
  refine ExtP_trans (ExtP_weaken (fun _ hf => hf) ?_ (mergeEdge_extP g us DESCRIBES_RELATIONSHIP ud))
    (ExtP_weaken (fun _ hf => hf) ?_ (mergeEdge_extP _ ws HOSTS_RELATIONSHIP us))
  · intro e he
    rw [he]
    exact Or.inl rfl
  · intro e he
    rw [he]
    exact Or.inr rfl

theorem processUrl_extP (db ts cname : Str) (g : GraphM) (url : Str) :
    ExtP (cuwLabels db) dhRel g (processUrl db ts cname g url) := by
  unfold processUrl
  refine ExtP_trans (ExtP_weaken ?_ (fun _ hf => hf.elim)
      (mergeNode_extP g (urlPat db url) ts))
    (ExtP_trans (ExtP_weaken ?_ (fun _ hf => hf.elim)
      (mergeNode_extP _ (websitePat db (extract_website_from_url url)) ts))
      (ExtP_weaken (fun _ hf => hf.elim) (fun _ he => he)
        (urlRelQuery_extP db _ cname url (extract_website_from_url url))))
  · intro n hl
    exact Or.inr (Or.inl hl)
  · intro n hl
    exact Or.inr (Or.inr hl)

theorem processConcept_extP (db emailId ts source : Str) (g : GraphM)
    (c : KnowledgeConcept) (hkw : c.keywords = []) :
    ExtP (cuwLabels db) dhRel g (processConcept db emailId ts source g c) := by
  unfold processConcept
  rw [hkw]
  simp only [List.foldl_nil]
  refine ExtP_trans (ExtP_weaken ?_ (fun _ hf => hf.elim)
      (mergeNode_extP g (conceptMergePat db c) ts)) ?_
  · intro n hl
    exact Or.inl hl
  · exact foldl_extP_mem _ c.urls
      (fun u _ g1 => processUrl_extP db ts c.name g1 u) _

theorem add_knowledge_extP (db : Str) (g : GraphM)
    (concepts : List KnowledgeConcept) (email_id ts source : Str)
    (hkw : ∀ c ∈ concepts, c.keywords = []) :
    ExtP (cuwLabels db) dhRel g (add_knowledge db g concepts email_id ts source) := by
  unfold add_knowledge
  exact foldl_extP_mem _ concepts
    (fun c hc g1 => processConcept_extP db email_id ts source g1 c (hkw c hc)) g

theorem contains_pair_false {a x y : Str} (h1 : a ≠ x) (h2 : a ≠ y) :
    ([x, y] : List Str).contains a = false := by
  apply Bool.eq_false_iff.mpr
  intro hc
  have hmem := List.elem_iff.mp hc
  rcases List.mem_cons.mp hmem with h | h
  · exact h1 h
  · rcases List.mem_cons.mp h with h' | h'
    · exact h2 h'
    · simp at h'

/-- The nodes of `g` carrying a given label. -/
def nodesWithLabel (g : GraphM) (lab : Str) : List NodeM :=
  g.nodes.filter (fun n => n.labels.contains lab)

/-- The provenance edges of `g`: those typed `REPRESENTS`, `CONTAINS` or
`SENDS`. -/
def provenanceEdges (g : GraphM) : List EdgeM :=
  g.edges.filter (fun e => e.rel == REPRESENTS_RELATIONSHIP ||
    e.rel == CONTAINS_RELATIONSHIP || e.rel == SENDS_RELATIONSHIP)

theorem cuw_no_label {db lab : Str} {n : NodeM} (hdb : lab ≠ db)
    (hc : lab ≠ CONCEPT_LABEL) (hu : lab ≠ URL_LABEL) (hw : lab ≠ WEBSITE_LABEL)
    (h : cuwLabels db n) : n.labels.contains lab = false := by
  rcases h with h | h | h <;> rw [h]
  · exact contains_pair_false hc hdb
  · exact contains_pair_false hu hdb
  · exact contains_pair_false hw hdb

theorem dh_not_provenance {e : EdgeM} (h : dhRel e) :
    (e.rel == REPRESENTS_RELATIONSHIP || e.rel == CONTAINS_RELATIONSHIP ||
      e.rel == SENDS_RELATIONSHIP) = false := by
  rcases h with h | h <;> rw [h] <;> decide

theorem filter_nodes_extP {pn pe} {g1 g2 : GraphM} (q : NodeM → Bool)
    (hx : ExtP pn pe g1 g2) (h : ∀ n, pn n → q n = false) :
    g2.nodes.filter q = g1.nodes.filter q := by
  obtain ⟨⟨ns, hn, hpn⟩, -⟩ := hx
  rw [hn, List.filter_append]
  have hnil : ns.filter q = [] := by
    rw [List.filter_eq_nil]
    intro a ha
    simp [h a (hpn a ha)]
  rw [hnil, List.append_nil]

theorem filter_edges_extP {pn pe} {g1 g2 : GraphM} (q : EdgeM → Bool)
    (hx : ExtP pn pe g1 g2) (h : ∀ e, pe e → q e = false) :
    g2.edges.filter q = g1.edges.filter q := by
  obtain ⟨-, ⟨es, he, hpe⟩⟩ := hx
  rw [he, List.filter_append]
  have hnil : es.filter q = [] := by
    rw [List.filter_eq_nil]
    intro a ha
    simp [h a (hpe a ha)]
  rw [hnil, List.append_nil]

/-- C10: when every concept's keyword list is empty, `add_knowledge` creates
no Email node, no Source node, and no `REPRESENTS`/`CONTAINS`/`SENDS` edge —
those writes live only in the per-keyword loop — while the Concept, URL and
Website merges still happen: each concept's merge pattern binds in the
resulting graph, and for each of its URLs the URL node pattern and the
derived Website node pattern bind as well.  (`db` is the partition label; it
must differ from the `Email`/`Source` labels for the label count to be
meaningful.) -/
theorem add_knowledge_no_keywords_no_provenance (db : Str) (g : GraphM)
    (concepts : List KnowledgeConcept) (email_id ts source : Str)
    (hkw : ∀ c ∈ concepts, c.keywords = [])
    (hdb1 : db ≠ EMAIL_LABEL) (hdb2 : db ≠ SOURCE_LABEL) :
    nodesWithLabel (add_knowledge db g concepts email_id ts source) EMAIL_LABEL
      = nodesWithLabel g EMAIL_LABEL ∧
    nodesWithLabel (add_knowledge db g concepts email_id ts source) SOURCE_LABEL
      = nodesWithLabel g SOURCE_LABEL ∧
    provenanceEdges (add_knowledge db g concepts email_id ts source)
      = provenanceEdges g ∧
    ∀ c ∈ concepts,
      NodeEst (add_knowledge db g concepts email_id ts source) (conceptMergePat db c) ∧
      ∀ u ∈ c.urls,
        NodeEst (add_knowledge db g concepts email_id ts source) (urlPat db u) ∧
        NodeEst (add_knowledge db g concepts email_id ts source)
          (websitePat db (extract_website_from_url u)) := by
  have hx := add_knowledge_extP db g concepts email_id ts source hkw
  refine ⟨?_, ?_, ?_, ?_⟩
  · exact filter_nodes_extP _ hx
      (fun n hn => cuw_no_label (fun he => hdb1 he.symm)
        (by decide) (by decide) (by decide) hn)
  · exact filter_nodes_extP _ hx
      (fun n hn => cuw_no_label (fun he => hdb2 he.symm)
        (by decide) (by decide) (by decide) hn)
  · exact filter_edges_extP _ hx (fun e he => dh_not_provenance he)
  · intro c hc
    have hest := add_knowledge_est db concepts email_id ts source g c hc
    refine ⟨hest.1, ?_⟩
    intro u hu
    obtain ⟨ud, us, ws, -, hus, hws, -, -⟩ := hest.2.1 u hu
    exact ⟨Option.isSome_iff_exists.mpr ⟨us, hus⟩,
      Option.isSome_iff_exists.mpr ⟨ws, hws⟩⟩

/-- The empty graph, for concrete runs. -/
def g0 : GraphM := ⟨[], []⟩

/-- A concrete concept with one URL and no keywords. -/
def conceptNoKw : KnowledgeConcept :=
  ⟨"c1".toList, "t1".toList, ["http://example.org/a".toList], []⟩

/-- Witness for C10 at a concrete ingestion of one keyword-less concept into
the empty graph. -/
theorem add_knowledge_no_keywords_no_provenance_witness :
    ((∀ c ∈ [conceptNoKw], c.keywords = ([] : List Str)) ∧
      "db".toList ≠ EMAIL_LABEL ∧ "db".toList ≠ SOURCE_LABEL) ∧
    (nodesWithLabel (add_knowledge "db".toList g0 [conceptNoKw] "e1".toList
        "2025-01-01".toList "s1".toList) EMAIL_LABEL
      = nodesWithLabel g0 EMAIL_LABEL ∧
    nodesWithLabel (add_knowledge "db".toList g0 [conceptNoKw] "e1".toList
        "2025-01-01".toList "s1".toList) SOURCE_LABEL
      = nodesWithLabel g0 SOURCE_LABEL ∧
    provenanceEdges (add_knowledge "db".toList g0 [conceptNoKw] "e1".toList
        "2025-01-01".toList "s1".toList) = provenanceEdges g0 ∧
    ∀ c ∈ [conceptNoKw],
      NodeEst (add_knowledge "db".toList g0 [conceptNoKw] "e1".toList
        "2025-01-01".toList "s1".toList) (conceptMergePat "db".toList c) ∧
      ∀ u ∈ c.urls,
        NodeEst (add_knowledge "db".toList g0 [conceptNoKw] "e1".toList
          "2025-01-01".toList "s1".toList) (urlPat "db".toList u) ∧
        NodeEst (add_knowledge "db".toList g0 [conceptNoKw] "e1".toList
          "2025-01-01".toList "s1".toList)
          (websitePat "db".toList (extract_website_from_url u))) :=
  ⟨⟨by decide, by decide, by decide⟩,
    add_knowledge_no_keywords_no_provenance "db".toList g0 [conceptNoKw]
      "e1".toList "2025-01-01".toList "s1".toList
      (by decide) (by decide) (by decide)⟩
